import Mathlib

/-!
Verification of the reloadable file-resource cache in
`src/debug/file_resources.rs` (`FileResources`): a mapping from names to
cached file contents, with mtime-driven staleness detection performed
lazily on access.

Shallow embedding choices:
  * Byte buffers (`Vec<u8>` / `Arc<Vec<u8>>`) are `List Nat`.
  * `SystemTime` values are `Nat`; `metadata.modified()` returning
    `Ok`/`Err` is `Option Nat`.
  * The filesystem is an explicit record of oracles `FS`: whether the
    metadata query for a path succeeds, what `modified()` returns, and
    what `fs::read` returns (`none` models an `io::Error`).
  * `compute_data_etag` (the deterministic hashing collaborator, declared
    in `crate::functions`, outside the cache module) is an arbitrary
    function parameter `etagFn : List Nat → Nat`.
  * `mime_guess::from_ext(..).first()` (the extension-to-label
    collaborator) is an arbitrary parameter `mimeGuess : String → Option String`,
    with `first_or_octet_stream` modelled by `Option.getD` of the
    octet-stream label.
  * The `HashMap<&str, Resource>` is an association list with unique-key
    map semantics: lookup finds the (first) binding, insert overwrites in
    place or appends, remove drops the binding.
  * Methods taking `&mut self` and returning `Result<T, io::Error>`
    become functions returning the updated store paired with an
    `Except`/`Option` result.
-/

set_option autoImplicit false

namespace FileResourcesSpec

/-- Outcome of a fallible store operation: `notFound` models an
`io::Error` with `ErrorKind::NotFound` (raised by `get_resource` for an
unregistered name), `ioError` models every other `io::Error`
(metadata-query failure or file-read failure). -/
inductive StoreError where
  | notFound
  | ioError
  deriving DecidableEq, Repr

/-- The filesystem as seen by the cache: for every path, whether
`path.metadata()` succeeds, what `metadata.modified()` reports when it
does (`none` models `Err`), and what `fs::read(path)` returns (`none`
models an `io::Error`). -/
structure FS where
  metadataOk : String → Bool
  modified : String → Option Nat
  readFile : String → Option (List Nat)

/-- One cache entry, mirroring `struct Resource` in
`src/debug/file_resources.rs` lines 14-22: `path`, `mime`, `data`,
`etag`, `mtime`. -/
structure Resource where
  path : String
  mime : String
  data : List Nat
  etag : Nat
  mtime : Option Nat
  deriving DecidableEq, Repr

/-- The store, mirroring `struct FileResources` (line 26): a map from
names to resources, represented as an association list. -/
structure FileResources where
  resources : List (String × Resource)
  deriving DecidableEq, Repr

/-- Mirrors `FileResources::new` (line 33): the empty map. -/
def FileResources.new : FileResources := ⟨[]⟩

/-- Map lookup on the association list, modelling
`HashMap::get` / `HashMap::get_mut`. -/
def lookupRes : List (String × Resource) → String → Option Resource
  | [], _ => none
  | (k, v) :: rest, n => if k = n then some v else lookupRes rest n

/-- Map insert on the association list, modelling `HashMap::insert`
(and the in-place entry mutation through `get_mut`): overwrite the
binding for the key if present, otherwise append it. -/
def insertRes : List (String × Resource) → String → Resource → List (String × Resource)
  | [], n, r => [(n, r)]
  | (k, v) :: rest, n, r =>
    if k = n then (n, r) :: rest else (k, v) :: insertRes rest n r

/-- Map removal on the association list, modelling `HashMap::remove`
(keys are unique in a `HashMap`, so dropping every binding of the key is
the same operation). -/
def removeRes : List (String × Resource) → String → List (String × Resource)
  | [], _ => []
  | (k, v) :: rest, n =>
    if k = n then removeRes rest n else (k, v) :: removeRes rest n

/-- Splits a character list on a separator; the resulting list is
always nonempty, with one (possibly empty) segment per run between
separators. -/
def splitOnChar (sep : Char) : List Char → List (List Char)
  | [] => [[]]
  | c :: rest =>
    if c = sep then [] :: splitOnChar sep rest
    else
      match splitOnChar sep rest with
      | [] => [[c]]
      | h :: t => (c :: h) :: t

/-- The final path component of a path string (the part after the last
slash), modelling `Path::file_name` for the paths the cache handles. -/
def fileNameOf (p : String) : List Char :=
  (splitOnChar '/' p.data).getLastD p.data

/-- Mirrors `Path::extension`: the portion of the file name after the
final dot; `none` when there is no dot, or when the only dot is the
leading character of the file name. -/
def extOf (p : String) : Option String :=
  match splitOnChar '.' (fileNameOf p) with
  | [] => none
  | [_] => none
  | first :: rest =>
    if first = [] ∧ rest.length = 1 then none
    else some (String.mk (rest.getLastD []))

/-- The generic binary-stream content-type label,
`mime::APPLICATION_OCTET_STREAM`. -/
def applicationOctetStream : String := "application/octet-stream"

/-- The content-type computation of `register_resource_file` lines
56-64: look the extension up through the collaborator and fall back to
the octet-stream label when the extension is absent or unrecognized.
(The `OsStr::to_str == None` arm of the source cannot arise for the
`String` paths of the model; it also falls back to octet-stream.) -/
def mimeFor (mimeGuess : String → Option String) (filePath : String) : String :=
  match extOf filePath with
  | some ext => (mimeGuess ext).getD applicationOctetStream
  | none => applicationOctetStream

/-- Mirrors `FileResources::register_resource_file` (lines 41-77):
query metadata (propagating failure), capture the mtime best-effort,
read the file fully (propagating failure), compute the etag and the
content type, and insert the entry, overwriting any prior binding. -/
def register_resource_file (fs : FS) (etagFn : List Nat → Nat)
    (mimeGuess : String → Option String) (s : FileResources)
    (name : String) (filePath : String) : Except StoreError FileResources :=
  if fs.metadataOk filePath then
    let mtime := fs.modified filePath
    match fs.readFile filePath with
    | none => Except.error StoreError.ioError
    | some data =>
      let etag := etagFn data
      let mime := mimeFor mimeGuess filePath
      Except.ok ⟨insertRes s.resources name ⟨filePath, mime, data, etag, mtime⟩⟩
  else Except.error StoreError.ioError

/-- Mirrors `FileResources::unregister_resource_file` (lines 81-85):
remove the binding if present and hand back its path. -/
def unregister_resource_file (s : FileResources) (name : String) :
    FileResources × Option String :=
  match lookupRes s.resources name with
  | none => (s, none)
  | some r => (⟨removeRes s.resources name⟩, some r.path)

/-- The staleness decision shared verbatim by `reload_if_needed` (lines
93-106) and `get_resource` (lines 139-152): from the cached `mtime` and
the result of the fresh `metadata.modified()` query, decide whether to
reload and what mtime to record if the reload happens. -/
def staleCheck (fs : FS) (r : Resource) : Bool × Option Nat :=
  match r.mtime with
  | some mtime =>
    match fs.modified r.path with
    | some newMtime => (decide (mtime < newMtime), some newMtime)
    | none => (true, none)
  | none =>
    match fs.modified r.path with
    | some newMtime => (true, some newMtime)
    | none => (true, none)

/-- The loop body of `FileResources::reload_if_needed` (lines 90-119)
over the remaining entries: for each entry query metadata (aborting the
sweep with the error on failure, later entries untouched), run the
staleness check, and on a stale entry re-read the file (aborting on
failure with the entry untouched) and replace `data`, `etag`, `mtime`.
Returns the entries after the sweep and the error that stopped it, if
any. -/
def reloadAllGo (fs : FS) (etagFn : List Nat → Nat) :
    List (String × Resource) → List (String × Resource) × Option StoreError
  | [] => ([], none)
  | (n, r) :: rest =>
    if fs.metadataOk r.path then
      let rn := staleCheck fs r
      if rn.1 then
        match fs.readFile r.path with
        | none => ((n, r) :: rest, some StoreError.ioError)
        | some newData =>
          let r2 : Resource :=
            { r with data := newData, etag := etagFn newData, mtime := rn.2 }
          let out := reloadAllGo fs etagFn rest
          ((n, r2) :: out.1, out.2)
      else
        let out := reloadAllGo fs etagFn rest
        ((n, r) :: out.1, out.2)
    else ((n, r) :: rest, some StoreError.ioError)

/-- Mirrors `FileResources::reload_if_needed` (lines 89-122): sweep all
entries; the returned store keeps every mutation made before an abort. -/
def reload_if_needed (fs : FS) (etagFn : List Nat → Nat) (s : FileResources) :
    FileResources × Option StoreError :=
  let out := reloadAllGo fs etagFn s.resources
  (⟨out.1⟩, out.2)

/-- Mirrors `FileResources::get_resource` (lines 127-167): look the name
up (`notFound` if absent), query metadata (propagating failure, store
untouched), run the staleness check, on a stale entry re-read the file
(propagating failure, store untouched) and replace `data`, `etag`,
`mtime`; finally return the entry's `(mime, data, etag)`. -/
def get_resource (fs : FS) (etagFn : List Nat → Nat) (s : FileResources)
    (name : String) : FileResources × Except StoreError (String × List Nat × Nat) :=
  match lookupRes s.resources name with
  | none => (s, Except.error StoreError.notFound)
  | some r =>
    if fs.metadataOk r.path then
      let rn := staleCheck fs r
      if rn.1 then
        match fs.readFile r.path with
        | none => (s, Except.error StoreError.ioError)
        | some newData =>
          let r2 : Resource :=
            { r with data := newData, etag := etagFn newData, mtime := rn.2 }
          (⟨insertRes s.resources name r2⟩, Except.ok (r2.mime, r2.data, r2.etag))
      else (s, Except.ok (r.mime, r.data, r.etag))
    else (s, Except.error StoreError.ioError)

/-- Abbreviation for one sweep step succeeding on an entry: its metadata
query succeeds and, when the staleness check indicates a reload, the
file read succeeds as well. -/
def entryOk (fs : FS) (r : Resource) : Bool :=
  fs.metadataOk r.path && (!(staleCheck fs r).1 || (fs.readFile r.path).isSome)

/-- The result of one successful sweep step on an entry: replaced
`data`, `etag`, `mtime` when the staleness check fired and the read
succeeded, the entry itself otherwise. -/
def reloadEntry (fs : FS) (etagFn : List Nat → Nat) (r : Resource) : Resource :=
  if (staleCheck fs r).1 then
    match fs.readFile r.path with
    | some newData =>
      { r with data := newData, etag := etagFn newData, mtime := (staleCheck fs r).2 }
    | none => r
  else r

/-- The store invariant of the spec: every entry's stored fingerprint is
the hash of its stored bytes. -/
def EtagConsistent (etagFn : List Nat → Nat) (s : FileResources) : Prop :=
  ∀ p ∈ s.resources, p.2.etag = etagFn p.2.data

instance (etagFn : List Nat → Nat) (s : FileResources) :
    Decidable (EtagConsistent etagFn s) := by
  unfold EtagConsistent; infer_instance

/-- One public operation on the store, used to state invariants over
arbitrary operation sequences. -/
inductive StoreOp where
  | registerOp (name filePath : String)
  | unregisterOp (name : String)
  | reloadAllOp
  | getOp (name : String)

/-- The store reached after one operation against a given filesystem
state (a failed `register` leaves the store unchanged, as the source
returns before `insert`). -/
def applyOp (etagFn : List Nat → Nat) (mimeGuess : String → Option String)
    (s : FileResources) : FS × StoreOp → FileResources
  | (fs, StoreOp.registerOp n p) =>
    match register_resource_file fs etagFn mimeGuess s n p with
    | Except.ok s2 => s2
    | Except.error _ => s
  | (_, StoreOp.unregisterOp n) => (unregister_resource_file s n).1
  | (fs, StoreOp.reloadAllOp) => (reload_if_needed fs etagFn s).1
  | (fs, StoreOp.getOp n) => (get_resource fs etagFn s n).1

/-- The store reached after a sequence of operations, each against its
own filesystem state (files may change between operations). -/
def runOps (etagFn : List Nat → Nat) (mimeGuess : String → Option String)
    (s : FileResources) (ops : List (FS × StoreOp)) : FileResources :=
  ops.foldl (applyOp etagFn mimeGuess) s

section MapLemmas

theorem lookupRes_insertRes_self (l : List (String × Resource)) (n : String)
    (r : Resource) : lookupRes (insertRes l n r) n = some r := by
  induction l with
  | nil => simp [insertRes, lookupRes]
  | cons p rest ih =>
    obtain ⟨k, v⟩ := p
    by_cases h : k = n <;> simp [insertRes, lookupRes, h, ih]

theorem lookupRes_insertRes_ne (l : List (String × Resource)) (n k : String)
    (r : Resource) (h : k ≠ n) :
    lookupRes (insertRes l n r) k = lookupRes l k := by
  induction l with
  | nil => simp [insertRes, lookupRes, Ne.symm h]
  | cons p rest ih =>
    obtain ⟨k2, v⟩ := p
    by_cases h2 : k2 = n
    · have h3 : ¬ k2 = k := by rw [h2]; exact Ne.symm h
      simp [insertRes, lookupRes, h2, h3, Ne.symm h]
    · simp only [insertRes, if_neg h2, lookupRes, ih]

theorem lookupRes_removeRes_self (l : List (String × Resource)) (n : String) :
    lookupRes (removeRes l n) n = none := by
  induction l with
  | nil => simp [removeRes, lookupRes]
  | cons p rest ih =>
    obtain ⟨k, v⟩ := p
    by_cases h : k = n <;> simp [removeRes, lookupRes, h, ih]

theorem lookupRes_removeRes_ne (l : List (String × Resource)) (n k : String)
    (h : k ≠ n) : lookupRes (removeRes l n) k = lookupRes l k := by
  induction l with
  | nil => simp [removeRes, lookupRes]
  | cons p rest ih =>
    obtain ⟨k2, v⟩ := p
    by_cases h2 : k2 = n
    · have h3 : ¬ k2 = k := by rw [h2]; exact Ne.symm h
      simp [removeRes, lookupRes, h2, h3, ih, Ne.symm h]
    · simp only [removeRes, if_neg h2, lookupRes, ih]

theorem mem_removeRes (l : List (String × Resource)) (n : String)
    (p : String × Resource) (hp : p ∈ removeRes l n) : p ∈ l := by
  induction l with
  | nil => simp [removeRes] at hp
  | cons q rest ih =>
    obtain ⟨k, v⟩ := q
    by_cases h : k = n
    · simp only [removeRes, if_pos h] at hp
      exact List.mem_cons_of_mem _ (ih hp)
    · simp only [removeRes, if_neg h, List.mem_cons] at hp
      rcases hp with hp | hp
      · simp [hp]
      · exact List.mem_cons_of_mem _ (ih hp)

theorem mem_insertRes (l : List (String × Resource)) (n : String) (r : Resource)
    (p : String × Resource) (hp : p ∈ insertRes l n r) : p ∈ l ∨ p = (n, r) := by
  induction l with
  | nil => simpa [insertRes] using hp
  | cons q rest ih =>
    obtain ⟨k, v⟩ := q
    by_cases h : k = n
    · simp [insertRes, h] at hp
      rcases hp with hp | hp
      · right; simp [hp]
      · left; simp [hp]
    · simp [insertRes, h] at hp
      rcases hp with hp | hp
      · left; simp [hp]
      · rcases ih hp with hh | hh
        · left; simp [hh]
        · right; exact hh

end MapLemmas

section Fixtures

/-- A concrete stand-in for the hashing collaborator, used only to
evaluate witnesses. -/
def etagSum : List Nat → Nat := fun l => l.sum

/-- A concrete stand-in for the extension-to-label collaborator, used
only to evaluate witnesses. -/
def mimeGuessW : String → Option String :=
  fun e => if e = "png" then some "image/png" else none

/-- A concrete filesystem where every path has mtime 5 and content
`[1, 2, 3]`. -/
def fsW : FS :=
  { metadataOk := fun _ => true
    modified := fun _ => some 5
    readFile := fun _ => some [1, 2, 3] }

/-- A concrete filesystem whose metadata queries all fail. -/
def fsMetaFail : FS :=
  { metadataOk := fun _ => false
    modified := fun _ => none
    readFile := fun _ => some [1, 2, 3] }

/-- A concrete filesystem where metadata succeeds with mtime 9 but every
content read fails. -/
def fsReadFail : FS :=
  { metadataOk := fun _ => true
    modified := fun _ => some 9
    readFile := fun _ => none }

/-- A concrete cached entry with mtime 3. -/
def rW : Resource :=
  { path := "dir/logo.png", mime := "image/png", data := [7], etag := 7, mtime := some 3 }

/-- A concrete cached entry with mtime 8 (newer than `fsW`'s mtime 5). -/
def rFresh : Resource :=
  { path := "dir/style.css", mime := "text/css", data := [4], etag := 4, mtime := some 8 }

/-- A concrete one-entry store holding `rW` under "logo". -/
def sW : FileResources := ⟨[("logo", rW)]⟩

/-- A concrete one-entry store holding `rFresh` under "style". -/
def sFresh : FileResources := ⟨[("style", rFresh)]⟩

end Fixtures

/-- C1: the staleness check shared by `get_resource` and
`reload_if_needed` reloads unconditionally when the cached mtime is
unknown; when the cached mtime is `some t` and the fresh query returns
`some t2` it reloads iff `t2 > t` strictly (recording `t2`); when the
cached mtime is `some t` and the fresh query fails it reloads and
records the mtime as unknown. -/
theorem claim1_staleness_policy (fs : FS) (r : Resource) :
    (r.mtime = none → staleCheck fs r = (true, fs.modified r.path)) ∧
    (∀ t t2, r.mtime = some t → fs.modified r.path = some t2 →
      staleCheck fs r = (decide (t < t2), some t2)) ∧
    (∀ t, r.mtime = some t → fs.modified r.path = none →
      staleCheck fs r = (true, none)) := by
  refine ⟨?_, ?_, ?_⟩
  · intro h
    cases h2 : fs.modified r.path <;> simp [staleCheck, h, h2]
  · intro t t2 h h2
    simp [staleCheck, h, h2]
  · intro t h h2
    simp [staleCheck, h, h2]

/-- Witness for C1 at the cached mtime 3 against on-disk mtime 5. -/
theorem claim1_staleness_policy_witness : staleCheck fsW rW = (true, some 5) := by
  have h := (claim1_staleness_policy fsW rW).2.1 3 5 rfl rfl
  simpa using h

/-- C3: when a reload is indicated but re-reading the file fails, the
error propagates and nothing is overwritten: `get_resource` leaves the
whole store untouched on a metadata-query failure and on a content-read
failure, and `reload_if_needed` leaves the failing entry and every entry
after it untouched. -/
theorem claim3_no_partial_overwrite (fs : FS) (etagFn : List Nat → Nat)
    (s : FileResources) (name : String) :
    (∀ r, lookupRes s.resources name = some r → fs.metadataOk r.path = false →
      get_resource fs etagFn s name = (s, Except.error StoreError.ioError)) ∧
    (∀ r, lookupRes s.resources name = some r → fs.metadataOk r.path = true →
      (staleCheck fs r).1 = true → fs.readFile r.path = none →
      get_resource fs etagFn s name = (s, Except.error StoreError.ioError)) ∧
    (∀ n r rest, fs.metadataOk r.path = true → (staleCheck fs r).1 = true →
      fs.readFile r.path = none →
      reload_if_needed fs etagFn ⟨(n, r) :: rest⟩ =
        (⟨(n, r) :: rest⟩, some StoreError.ioError)) := by
  refine ⟨?_, ?_, ?_⟩
  · intro r hl hm
    simp [get_resource, hl, hm]
  · intro r hl hm hr hread
    simp [get_resource, hl, hm, hr, hread]
  · intro n r rest hm hr hread
    simp [reload_if_needed, reloadAllGo, hm, hr, hread]

/-- Witness for C3: a read failure during `get_resource` on a stale
entry propagates the error and leaves the store unchanged. -/
theorem claim3_no_partial_overwrite_witness :
    get_resource fsReadFail etagSum sW "logo" =
      (sW, Except.error StoreError.ioError) := by
  exact (claim3_no_partial_overwrite fsReadFail etagSum sW "logo").2.1 rW rfl rfl
    (by decide) rfl

/-- C4: when the cached mtime is `some t` and the on-disk mtime `t2`
satisfies `t2 ≤ t`, `get_resource` does not reload: the store is
unchanged (whatever `fs.readFile` would return) and the call returns the
cached mime, bytes and fingerprint; a repeated fetch therefore returns
the identical bytes and fingerprint again. -/
theorem claim4_no_reload_on_old_mtime (fs : FS) (etagFn : List Nat → Nat)
    (s : FileResources) (name : String) (r : Resource) (t t2 : Nat)
    (hl : lookupRes s.resources name = some r)
    (hm : fs.metadataOk r.path = true)
    (ht : r.mtime = some t) (hM : fs.modified r.path = some t2) (hle : t2 ≤ t) :
    get_resource fs etagFn s name = (s, Except.ok (r.mime, r.data, r.etag)) ∧
    get_resource fs etagFn (get_resource fs etagFn s name).1 name =
      (s, Except.ok (r.mime, r.data, r.etag)) := by
  have hstale : staleCheck fs r = (false, some t2) := by
    simp [staleCheck, ht, hM, Nat.not_lt.mpr hle]
  have h1 : get_resource fs etagFn s name = (s, Except.ok (r.mime, r.data, r.etag)) := by
    simp [get_resource, hl, hm, hstale]
  exact ⟨h1, by rw [h1]; exact h1⟩

/-- Witness for C4: the entry cached at mtime 8 is not reloaded against
a filesystem reporting mtime 5, twice in a row. -/
theorem claim4_no_reload_on_old_mtime_witness :
    get_resource fsW etagSum sFresh "style" =
      (sFresh, Except.ok (rFresh.mime, rFresh.data, rFresh.etag)) ∧
    get_resource fsW etagSum (get_resource fsW etagSum sFresh "style").1 "style" =
      (sFresh, Except.ok (rFresh.mime, rFresh.data, rFresh.etag)) := by
  exact claim4_no_reload_on_old_mtime fsW etagSum sFresh "style" rFresh 8 5 rfl rfl rfl
    rfl (by decide)

/-- C6: `get_resource` fails with the not-found error exactly when the
name is absent from the store, and a present entry whose metadata query
fails yields the I/O error with the store unchanged — there is no
fallback to the stale cached bytes. -/
theorem claim6_get_error_cases (fs : FS) (etagFn : List Nat → Nat)
    (s : FileResources) (name : String) :
    ((get_resource fs etagFn s name).2 = Except.error StoreError.notFound ↔
      lookupRes s.resources name = none) ∧
    (∀ r, lookupRes s.resources name = some r → fs.metadataOk r.path = false →
      get_resource fs etagFn s name = (s, Except.error StoreError.ioError)) := by
  constructor
  · constructor
    · intro h
      cases hl : lookupRes s.resources name with
      | none => rfl
      | some r =>
        exfalso
        by_cases hm : fs.metadataOk r.path
        · by_cases hr : (staleCheck fs r).1
          · cases hread : fs.readFile r.path with
            | none => simp [get_resource, hl, hm, hr, hread] at h
            | some nd => simp [get_resource, hl, hm, hr, hread] at h
          · simp [get_resource, hl, hm, hr] at h
        · simp [get_resource, hl, hm] at h
    · intro h
      simp [get_resource, h]
  · intro r hl hm
    simp [get_resource, hl, hm]

/-- Witness for C6: fetching an unregistered name reports not-found, and
a present entry with a failing metadata query reports the I/O error. -/
theorem claim6_get_error_cases_witness :
    (get_resource fsW etagSum sW "missing").2 = Except.error StoreError.notFound ∧
    get_resource fsMetaFail etagSum sW "logo" =
      (sW, Except.error StoreError.ioError) := by
  constructor
  · exact (claim6_get_error_cases fsW etagSum sW "missing").1.mpr (by decide)
  · exact (claim6_get_error_cases fsMetaFail etagSum sW "logo").2 rW rfl rfl

/-- C8: `unregister_resource_file` removes a present entry and returns
its path, returns `none` without error for an absent name, and a
subsequent `get_resource` of the removed name fails with not-found. -/
theorem claim8_unregister (fs : FS) (etagFn : List Nat → Nat)
    (s : FileResources) (name : String) :
    (lookupRes s.resources name = none →
      unregister_resource_file s name = (s, none)) ∧
    (∀ r, lookupRes s.resources name = some r →
      (unregister_resource_file s name).2 = some r.path ∧
      (get_resource fs etagFn (unregister_resource_file s name).1 name).2 =
        Except.error StoreError.notFound) := by
  constructor
  · intro h
    simp [unregister_resource_file, h]
  · intro r h
    constructor
    · simp [unregister_resource_file, h]
    · simp [unregister_resource_file, h, get_resource, lookupRes_removeRes_self]

/-- Witness for C8: unregistering "logo" returns its path and makes the
next fetch fail with not-found. -/
theorem claim8_unregister_witness :
    (unregister_resource_file sW "logo").2 = some rW.path ∧
    (get_resource fsW etagSum (unregister_resource_file sW "logo").1 "logo").2 =
      Except.error StoreError.notFound := by
  exact (claim8_unregister fsW etagSum sW "logo").2 rW rfl

theorem get_resource_frame (fs : FS) (etagFn : List Nat → Nat) (s : FileResources)
    (name k : String) (h : k ≠ name) :
    lookupRes (get_resource fs etagFn s name).1.resources k =
      lookupRes s.resources k := by
  cases hl : lookupRes s.resources name with
  | none => simp [get_resource, hl]
  | some r =>
    by_cases hm : fs.metadataOk r.path
    · by_cases hr : (staleCheck fs r).1
      · cases hread : fs.readFile r.path with
        | none => simp [get_resource, hl, hm, hr, hread]
        | some nd =>
          simp [get_resource, hl, hm, hr, hread,
            lookupRes_insertRes_ne _ _ _ _ h]
      · simp [get_resource, hl, hm, hr]
    · simp [get_resource, hl, hm]

theorem unregister_frame (s : FileResources) (name k : String) (h : k ≠ name) :
    lookupRes (unregister_resource_file s name).1.resources k =
      lookupRes s.resources k := by
  cases hl : lookupRes s.resources name with
  | none => simp [unregister_resource_file, hl]
  | some r => simp [unregister_resource_file, hl, lookupRes_removeRes_ne _ _ _ h]

/-- C10: `get_resource` mutates at most the entry under the fetched
name, and `unregister_resource_file` removes at most the entry under the
given name: every other key's entry is unchanged. -/
theorem claim10_frame (fs : FS) (etagFn : List Nat → Nat) (s : FileResources)
    (name k : String) (h : k ≠ name) :
    lookupRes (get_resource fs etagFn s name).1.resources k =
      lookupRes s.resources k ∧
    lookupRes (unregister_resource_file s name).1.resources k =
      lookupRes s.resources k :=
  ⟨get_resource_frame fs etagFn s name k h, unregister_frame s name k h⟩

/-- Witness for C10: fetching or unregistering "logo" leaves the lookup
of "other" unchanged. -/
theorem claim10_frame_witness :
    lookupRes (get_resource fsW etagSum sW "logo").1.resources "other" =
      lookupRes sW.resources "other" ∧
    lookupRes (unregister_resource_file sW "logo").1.resources "other" =
      lookupRes sW.resources "other" := by
  exact claim10_frame fsW etagSum sW "logo" "other" (by decide)

section SweepLemmas

theorem reloadAllGo_cons_ok (fs : FS) (etagFn : List Nat → Nat) (n : String)
    (r : Resource) (rest : List (String × Resource)) (h : entryOk fs r = true) :
    reloadAllGo fs etagFn ((n, r) :: rest) =
      ((n, reloadEntry fs etagFn r) :: (reloadAllGo fs etagFn rest).1,
        (reloadAllGo fs etagFn rest).2) := by
  unfold entryOk at h
  by_cases hm : fs.metadataOk r.path
  · by_cases hr : (staleCheck fs r).1
    · cases hread : fs.readFile r.path with
      | none => simp [hm, hr, hread] at h
      | some nd => simp [reloadAllGo, reloadEntry, hm, hr, hread]
    · simp [reloadAllGo, reloadEntry, hm, hr]
  · simp [hm] at h

theorem reloadAllGo_cons_fail (fs : FS) (etagFn : List Nat → Nat) (n : String)
    (r : Resource) (rest : List (String × Resource)) (h : entryOk fs r = false) :
    reloadAllGo fs etagFn ((n, r) :: rest) =
      ((n, r) :: rest, some StoreError.ioError) := by
  unfold entryOk at h
  by_cases hm : fs.metadataOk r.path
  · by_cases hr : (staleCheck fs r).1
    · cases hread : fs.readFile r.path with
      | none => simp [reloadAllGo, hm, hr, hread]
      | some nd => simp [hm, hr, hread] at h
    · simp [hm, hr] at h
  · simp [reloadAllGo, hm]

theorem reloadAllGo_all_ok (fs : FS) (etagFn : List Nat → Nat) :
    ∀ l : List (String × Resource), (∀ p ∈ l, entryOk fs p.2 = true) →
      reloadAllGo fs etagFn l =
        (l.map (fun p => (p.1, reloadEntry fs etagFn p.2)), none) := by
  intro l
  induction l with
  | nil => intro _; simp [reloadAllGo]
  | cons q rest ih =>
    intro h
    obtain ⟨n, r⟩ := q
    rw [reloadAllGo_cons_ok fs etagFn n r rest (h (n, r) (by simp)),
      ih (fun p hp => h p (List.mem_cons_of_mem _ hp))]
    simp

theorem reloadAllGo_prefix_fail (fs : FS) (etagFn : List Nat → Nat) :
    ∀ (pre : List (String × Resource)) (n : String) (r : Resource)
      (post : List (String × Resource)),
      (∀ p ∈ pre, entryOk fs p.2 = true) → entryOk fs r = false →
      reloadAllGo fs etagFn (pre ++ (n, r) :: post) =
        (pre.map (fun p => (p.1, reloadEntry fs etagFn p.2)) ++ (n, r) :: post,
          some StoreError.ioError) := by
  intro pre
  induction pre with
  | nil =>
    intro n r post _ hf
    simpa using reloadAllGo_cons_fail fs etagFn n r post hf
  | cons q rest ih =>
    intro n r post hpre hf
    obtain ⟨n2, r2⟩ := q
    rw [List.cons_append,
      reloadAllGo_cons_ok fs etagFn n2 r2 _ (hpre (n2, r2) (by simp)),
      ih n r post (fun p hp => hpre p (List.mem_cons_of_mem _ hp)) hf]
    simp

end SweepLemmas

/-- C5: `reload_if_needed` sweeps the entries in order, applying the
staleness check to each independently; when every entry succeeds it
replaces exactly the stale ones and reports no error, and when an entry
fails (metadata query or content read) after a prefix of successes, the
sweep aborts with that single error, the prefix keeps its reloaded
state, and the failing entry and everything after it keep their old
state. -/
theorem claim5_reload_all_aborts_at_first_failure (fs : FS)
    (etagFn : List Nat → Nat) (l : List (String × Resource)) :
    ((∀ p ∈ l, entryOk fs p.2 = true) →
      reload_if_needed fs etagFn ⟨l⟩ =
        (⟨l.map (fun p => (p.1, reloadEntry fs etagFn p.2))⟩, none)) ∧
    (∀ pre n r post, l = pre ++ (n, r) :: post →
      (∀ p ∈ pre, entryOk fs p.2 = true) → entryOk fs r = false →
      reload_if_needed fs etagFn ⟨l⟩ =
        (⟨pre.map (fun p => (p.1, reloadEntry fs etagFn p.2)) ++ (n, r) :: post⟩,
          some StoreError.ioError)) := by
  constructor
  · intro h
    simp [reload_if_needed, reloadAllGo_all_ok fs etagFn l h]
  · intro pre n r post hl hpre hf
    subst hl
    simp [reload_if_needed, reloadAllGo_prefix_fail fs etagFn pre n r post hpre hf]

/-- Witness for C5: against a filesystem whose reads all fail, a sweep
over a stale entry followed by a fresh entry aborts on the stale entry
with the I/O error and leaves both entries as they were. -/
theorem claim5_reload_all_aborts_at_first_failure_witness :
    reload_if_needed fsReadFail etagSum ⟨[("logo", rW), ("style", rFresh)]⟩ =
      (⟨[("logo", rW), ("style", rFresh)]⟩, some StoreError.ioError) := by
  have h := (claim5_reload_all_aborts_at_first_failure fsReadFail etagSum
    [("logo", rW), ("style", rFresh)]).2 [] "logo" rW [("style", rFresh)] rfl
    (by intro p hp; simp at hp) (by decide)
  simpa using h

section MtimeLemmas

theorem staleCheck_mono (fs : FS) (r : Resource) (t u : Nat) (ht : r.mtime = some t)
    (h1 : (staleCheck fs r).1 = true) (hu : (staleCheck fs r).2 = some u) :
    t ≤ u := by
  cases hM : fs.modified r.path with
  | none => simp [staleCheck, ht, hM] at hu
  | some t2 =>
    simp [staleCheck, ht, hM] at h1 hu
    omega

theorem reloadEntry_cases (fs : FS) (etagFn : List Nat → Nat) (r : Resource) :
    reloadEntry fs etagFn r = r ∨
      ((staleCheck fs r).1 = true ∧
        (reloadEntry fs etagFn r).mtime = (staleCheck fs r).2) := by
  by_cases hr : (staleCheck fs r).1
  · cases hread : fs.readFile r.path with
    | none => left; simp [reloadEntry, hr, hread]
    | some nd => right; simp [reloadEntry, hr, hread]
  · left; simp [reloadEntry, hr]

theorem get_resource_lookup_self (fs : FS) (etagFn : List Nat → Nat)
    (s : FileResources) (name : String) (r : Resource)
    (hl : lookupRes s.resources name = some r) :
    ∃ r2, lookupRes (get_resource fs etagFn s name).1.resources name = some r2 ∧
      (r2 = r ∨ ((staleCheck fs r).1 = true ∧ r2.mtime = (staleCheck fs r).2)) := by
  by_cases hm : fs.metadataOk r.path
  · by_cases hr : (staleCheck fs r).1
    · cases hread : fs.readFile r.path with
      | none =>
        refine ⟨r, ?_, Or.inl rfl⟩
        rw [show (get_resource fs etagFn s name).1 = s from by
          simp [get_resource, hl, hm, hr, hread]]
        exact hl
      | some nd =>
        refine ⟨{ r with data := nd, etag := etagFn nd, mtime := (staleCheck fs r).2 },
          ?_, Or.inr ⟨hr, rfl⟩⟩
        rw [show (get_resource fs etagFn s name).1 =
            ⟨insertRes s.resources name
              { r with data := nd, etag := etagFn nd, mtime := (staleCheck fs r).2 }⟩ from by
          simp [get_resource, hl, hm, hr, hread]]
        exact lookupRes_insertRes_self _ _ _
    · refine ⟨r, ?_, Or.inl rfl⟩
      rw [show (get_resource fs etagFn s name).1 = s from by
        simp [get_resource, hl, hm, hr]]
      exact hl
  · refine ⟨r, ?_, Or.inl rfl⟩
    rw [show (get_resource fs etagFn s name).1 = s from by
      simp [get_resource, hl, hm]]
    exact hl

theorem reloadAllGo_lookup (fs : FS) (etagFn : List Nat → Nat) :
    ∀ (l : List (String × Resource)) (k : String) (r2 : Resource),
      lookupRes (reloadAllGo fs etagFn l).1 k = some r2 →
      ∃ r, lookupRes l k = some r ∧
        (r2 = r ∨ ((staleCheck fs r).1 = true ∧ r2.mtime = (staleCheck fs r).2)) := by
  intro l
  induction l with
  | nil =>
    intro k r2 h
    simp [reloadAllGo, lookupRes] at h
  | cons p rest ih =>
    intro k r2 h
    obtain ⟨n, r⟩ := p
    by_cases hok : entryOk fs r = true
    · rw [reloadAllGo_cons_ok fs etagFn n r rest hok] at h
      by_cases hk : n = k
      · refine ⟨r, by simp [lookupRes, hk], ?_⟩
        have h2 : reloadEntry fs etagFn r = r2 := by
          simpa [lookupRes, hk] using h
        rcases reloadEntry_cases fs etagFn r with hc | hc
        · left; rw [← h2, hc]
        · right; exact ⟨hc.1, by rw [← h2]; exact hc.2⟩
      · have h2 : lookupRes (reloadAllGo fs etagFn rest).1 k = some r2 := by
          simpa [lookupRes, hk] using h
        obtain ⟨r3, h3, hc⟩ := ih k r2 h2
        exact ⟨r3, by simp [lookupRes, hk, h3], hc⟩
    · rw [reloadAllGo_cons_fail fs etagFn n r rest
        (by simpa using hok)] at h
      exact ⟨r2, h, Or.inl rfl⟩

end MtimeLemmas

/-- C9: a known cached mtime is never replaced by a strictly smaller
known mtime: after a `get_resource` or a `reload_if_needed`, an entry
whose mtime was `some t` has mtime `some t`, or `some u` with `t ≤ u`
(strictly greater when it changed), or `none`. -/
theorem claim9_mtime_never_lowered (fs : FS) (etagFn : List Nat → Nat)
    (s : FileResources) :
    (∀ name k r t r2 u,
      lookupRes s.resources k = some r → r.mtime = some t →
      lookupRes (get_resource fs etagFn s name).1.resources k = some r2 →
      r2.mtime = some u → t ≤ u) ∧
    (∀ k r t r2 u,
      lookupRes s.resources k = some r → r.mtime = some t →
      lookupRes (reload_if_needed fs etagFn s).1.resources k = some r2 →
      r2.mtime = some u → t ≤ u) := by
  constructor
  · intro name k r t r2 u hk ht h2 hu
    by_cases hkn : k = name
    · subst hkn
      obtain ⟨r3, h3, hc⟩ := get_resource_lookup_self fs etagFn s k r hk
      rw [h2] at h3
      have h4 : r2 = r3 := Option.some.inj h3
      rw [← h4] at hc
      rcases hc with hc | hc
      · rw [hc, ht] at hu
        injection hu with h5
        omega
      · exact staleCheck_mono fs r t u ht hc.1 (by rw [← hc.2]; exact hu)
    · rw [get_resource_frame fs etagFn s name k hkn, hk] at h2
      have h4 : r2 = r := by injection h2 with h4; exact h4.symm
      rw [h4, ht] at hu
      injection hu with h5
      omega
  · intro k r t r2 u hk ht h2 hu
    have h2b : lookupRes (reloadAllGo fs etagFn s.resources).1 k = some r2 := h2
    obtain ⟨r3, h3, hc⟩ := reloadAllGo_lookup fs etagFn s.resources k r2 h2b
    rw [hk] at h3
    have h4 : r3 = r := by injection h3 with h4; exact h4.symm
    rw [h4] at hc
    rcases hc with hc | hc
    · rw [hc, ht] at hu
      injection hu with h5
      omega
    · exact staleCheck_mono fs r t u ht hc.1 (by rw [← hc.2]; exact hu)

/-- Witness for C9: fetching "logo" (cached mtime 3) against a
filesystem reporting mtime 5 leaves the entry with mtime 5, and 3 ≤ 5. -/
theorem claim9_mtime_never_lowered_witness : (3 : Nat) ≤ 5 := by
  refine (claim9_mtime_never_lowered fsW etagSum sW).1 "logo" "logo" rW 3
    ⟨"dir/logo.png", "image/png", [1, 2, 3], 6, some 5⟩ 5 rfl rfl ?_ rfl
  decide

/-- C7: `register_resource_file` fails with the I/O error when metadata
or the content read fails, and otherwise inserts (overwriting any prior
binding) an entry holding the full file content, its fingerprint, the
content type derived from the path's extension with the octet-stream
fallback, and the best-effort mtime (`none` when the mtime query fails,
without failing the operation); and a reload through `get_resource`
replaces only `data`, `etag` and `mtime`, never re-deriving `mime` or
`path`. -/
theorem claim7_register_semantics (fs : FS) (etagFn : List Nat → Nat)
    (mimeGuess : String → Option String) (s : FileResources)
    (name filePath : String) :
    (fs.metadataOk filePath = false →
      register_resource_file fs etagFn mimeGuess s name filePath =
        Except.error StoreError.ioError) ∧
    (fs.metadataOk filePath = true → fs.readFile filePath = none →
      register_resource_file fs etagFn mimeGuess s name filePath =
        Except.error StoreError.ioError) ∧
    (∀ data, fs.metadataOk filePath = true → fs.readFile filePath = some data →
      register_resource_file fs etagFn mimeGuess s name filePath =
        Except.ok ⟨insertRes s.resources name
          ⟨filePath, mimeFor mimeGuess filePath, data, etagFn data,
            fs.modified filePath⟩⟩ ∧
      lookupRes (insertRes s.resources name
          ⟨filePath, mimeFor mimeGuess filePath, data, etagFn data,
            fs.modified filePath⟩) name =
        some ⟨filePath, mimeFor mimeGuess filePath, data, etagFn data,
          fs.modified filePath⟩) ∧
    (extOf filePath = none →
      mimeFor mimeGuess filePath = applicationOctetStream) ∧
    (∀ ext, extOf filePath = some ext → mimeGuess ext = none →
      mimeFor mimeGuess filePath = applicationOctetStream) ∧
    (∀ r nd, lookupRes s.resources name = some r → fs.metadataOk r.path = true →
      (staleCheck fs r).1 = true → fs.readFile r.path = some nd →
      lookupRes (get_resource fs etagFn s name).1.resources name =
        some ⟨r.path, r.mime, nd, etagFn nd, (staleCheck fs r).2⟩) := by
  refine ⟨?_, ?_, ?_, ?_, ?_, ?_⟩
  · intro h
    simp [register_resource_file, h]
  · intro h h2
    simp [register_resource_file, h, h2]
  · intro data h h2
    exact ⟨by simp [register_resource_file, h, h2], lookupRes_insertRes_self _ _ _⟩
  · intro h
    simp [mimeFor, h]
  · intro ext h h2
    simp [mimeFor, h, h2, applicationOctetStream]
  · intro r nd hl hm hr hread
    rw [show (get_resource fs etagFn s name).1 =
        ⟨insertRes s.resources name
          { r with data := nd, etag := etagFn nd, mtime := (staleCheck fs r).2 }⟩ from by
      simp [get_resource, hl, hm, hr, hread]]
    exact lookupRes_insertRes_self _ _ _

/-- Witness for C7: registering "dir/logo.png" into the empty store
against a filesystem with content `[1, 2, 3]` and mtime 5 stores the
bytes, fingerprint 6, the png label, and mtime 5. -/
theorem claim7_register_semantics_witness :
    register_resource_file fsW etagSum mimeGuessW FileResources.new "logo"
        "dir/logo.png" =
      Except.ok ⟨[("logo", ⟨"dir/logo.png", "image/png", [1, 2, 3], 6, some 5⟩)]⟩ := by
  have h := ((claim7_register_semantics fsW etagSum mimeGuessW
    FileResources.new "logo" "dir/logo.png").2.2.1 [1, 2, 3] rfl rfl).1
  rw [h]
  congr 1

section InvariantLemmas

theorem reloadEntry_etag (fs : FS) (etagFn : List Nat → Nat) (r : Resource)
    (h : r.etag = etagFn r.data) :
    (reloadEntry fs etagFn r).etag = etagFn (reloadEntry fs etagFn r).data := by
  by_cases hr : (staleCheck fs r).1
  · cases hread : fs.readFile r.path with
    | none => simpa [reloadEntry, hr, hread] using h
    | some nd => simp [reloadEntry, hr, hread]
  · simpa [reloadEntry, hr] using h

theorem etagConsistent_register (fs : FS) (etagFn : List Nat → Nat)
    (mimeGuess : String → Option String) (s : FileResources)
    (name filePath : String) (s2 : FileResources)
    (h : EtagConsistent etagFn s)
    (h2 : register_resource_file fs etagFn mimeGuess s name filePath =
      Except.ok s2) :
    EtagConsistent etagFn s2 := by
  cases hm : fs.metadataOk filePath
  · simp [register_resource_file, hm] at h2
  · cases hread : fs.readFile filePath with
    | none => simp [register_resource_file, hm, hread] at h2
    | some data =>
      simp only [register_resource_file, hm, hread, if_true] at h2
      injection h2 with h3
      intro p hp
      rw [← h3] at hp
      rcases mem_insertRes _ _ _ p hp with hh | hh
      · exact h p hh
      · rw [hh]

theorem etagConsistent_unregister (etagFn : List Nat → Nat)
    (s : FileResources) (name : String) (h : EtagConsistent etagFn s) :
    EtagConsistent etagFn (unregister_resource_file s name).1 := by
  cases hl : lookupRes s.resources name with
  | none => simpa [unregister_resource_file, hl] using h
  | some r =>
    intro p hp
    simp only [unregister_resource_file, hl] at hp
    exact h p (mem_removeRes _ _ p hp)

theorem etagConsistent_get (fs : FS) (etagFn : List Nat → Nat)
    (s : FileResources) (name : String) (h : EtagConsistent etagFn s) :
    EtagConsistent etagFn (get_resource fs etagFn s name).1 := by
  cases hl : lookupRes s.resources name with
  | none => simpa [get_resource, hl] using h
  | some r =>
    by_cases hm : fs.metadataOk r.path
    · by_cases hr : (staleCheck fs r).1
      · cases hread : fs.readFile r.path with
        | none => simpa [get_resource, hl, hm, hr, hread] using h
        | some nd =>
          intro p hp
          rw [show (get_resource fs etagFn s name).1 =
              ⟨insertRes s.resources name
                { r with data := nd, etag := etagFn nd, mtime := (staleCheck fs r).2 }⟩ from by
            simp [get_resource, hl, hm, hr, hread]] at hp
          rcases mem_insertRes _ _ _ p hp with hh | hh
          · exact h p hh
          · rw [hh]
      · simpa [get_resource, hl, hm, hr] using h
    · simpa [get_resource, hl, hm] using h

theorem etagConsistent_reloadAllGo (fs : FS) (etagFn : List Nat → Nat) :
    ∀ l : List (String × Resource), (∀ p ∈ l, p.2.etag = etagFn p.2.data) →
      ∀ p ∈ (reloadAllGo fs etagFn l).1, p.2.etag = etagFn p.2.data := by
  intro l
  induction l with
  | nil =>
    intro _ p hp
    simp [reloadAllGo] at hp
  | cons q rest ih =>
    intro h p hp
    obtain ⟨n, r⟩ := q
    by_cases hok : entryOk fs r = true
    · rw [reloadAllGo_cons_ok fs etagFn n r rest hok] at hp
      rcases List.mem_cons.mp hp with hh | hh
      · rw [hh]
        exact reloadEntry_etag fs etagFn r (h (n, r) (by simp))
      · exact ih (fun q2 hq => h q2 (List.mem_cons_of_mem _ hq)) p hh
    · rw [reloadAllGo_cons_fail fs etagFn n r rest (by simpa using hok)] at hp
      exact h p hp

theorem etagConsistent_reload (fs : FS) (etagFn : List Nat → Nat)
    (s : FileResources) (h : EtagConsistent etagFn s) :
    EtagConsistent etagFn (reload_if_needed fs etagFn s).1 := by
  intro p hp
  exact etagConsistent_reloadAllGo fs etagFn s.resources h p hp

theorem etagConsistent_applyOp (etagFn : List Nat → Nat)
    (mimeGuess : String → Option String) (s : FileResources)
    (op : FS × StoreOp) (h : EtagConsistent etagFn s) :
    EtagConsistent etagFn (applyOp etagFn mimeGuess s op) := by
  obtain ⟨fs, op⟩ := op
  cases op with
  | registerOp n p =>
    cases hreg : register_resource_file fs etagFn mimeGuess s n p with
    | ok s2 =>
      have hs2 := etagConsistent_register fs etagFn mimeGuess s n p s2 h hreg
      simpa [applyOp, hreg] using hs2
    | error e => simpa [applyOp, hreg] using h
  | unregisterOp n => exact etagConsistent_unregister etagFn s n h
  | reloadAllOp => exact etagConsistent_reload fs etagFn s h
  | getOp n => exact etagConsistent_get fs etagFn s n h

theorem etagConsistent_runOps (etagFn : List Nat → Nat)
    (mimeGuess : String → Option String) :
    ∀ (ops : List (FS × StoreOp)) (s : FileResources),
      EtagConsistent etagFn s →
      EtagConsistent etagFn (runOps etagFn mimeGuess s ops) := by
  intro ops
  induction ops with
  | nil => intro s h; exact h
  | cons op rest ih =>
    intro s h
    exact ih (applyOp etagFn mimeGuess s op)
      (etagConsistent_applyOp etagFn mimeGuess s op h)

end InvariantLemmas

/-- C2: after any sequence of register, unregister, reload-all and get
operations starting from the empty store, every entry in the store has
its fingerprint equal to the hash of its stored bytes — no entry is ever
observable with bytes not matching its fingerprint. -/
theorem claim2_etag_always_consistent (etagFn : List Nat → Nat)
    (mimeGuess : String → Option String) (ops : List (FS × StoreOp)) :
    EtagConsistent etagFn (runOps etagFn mimeGuess FileResources.new ops) :=
  etagConsistent_runOps etagFn mimeGuess ops FileResources.new
    (fun p hp => absurd hp (List.not_mem_nil p))

end FileResourcesSpec
